import Mathlib

/-!
Verification of the disinfo-nsai-detector consumption/orchestration pipeline.

Shallow embedding of the Rust sources:

* `src/model_pb.rs` — the prost-encoded `AnalysisInput` envelope (four string
  fields, tags 1–4).  Strings are modelled as their UTF-8 byte sequences
  (`List Nat`); the prost wire format (base-128 varints, length-delimited
  fields, unknown-tag skipping, empty fields elided on encode) is embedded
  directly over byte lists.
* `src/onnx_wrapper.rs` — `run_inference`, the placeholder feature extractor.
  `f32` scores are modelled as exact rationals; every score literal appearing
  in the sources (0.5, 0.3, 0.9, 0.7, 0.8, 0.6) is exactly representable and
  every comparison the code performs on them agrees between `f32` and `ℚ`,
  so no float/rational discrepancy arises.
* `src/souffle_wrapper.rs` — `run_datalog`, the placeholder verdict engine.
* `src/main.rs` — `process_message` (the per-message orchestrator),
  `run_consumer` (the pull loop), `fetch_dgraph_facts`, and
  `handle_metrics_request`.  Effects (counter increments, histogram
  observations, acks) are modelled by explicit state passing through an
  `Effects` record.
-/

namespace NSAI

/-- Structure `AnalysisInput` from `src/model_pb.rs` (proto tags 1–4); each
string field is modelled as its UTF-8 byte sequence. -/
structure AnalysisInput where
  content_hash : List Nat
  content_text : List Nat
  source_id : List Nat
  image_url : List Nat
deriving DecidableEq, Repr

/-- The prost default value: all four string fields empty. -/
def AnalysisInput.default : AnalysisInput := ⟨[], [], [], []⟩

/-- Base-128 varint encoding of a natural number (protobuf wire format, as
emitted by prost for field keys and lengths). -/
def encodeVarint (n : Nat) : List Nat :=
  if h : n < 128 then [n]
  else (n % 128 + 128) :: encodeVarint (n / 128)
termination_by n
decreasing_by
  exact Nat.div_lt_self (by omega) (by omega)

/-- Base-128 varint decoding: returns the value and the remaining bytes, or
`none` when the buffer ends inside a varint. -/
def decodeVarint : List Nat → Option (Nat × List Nat)
  | [] => none
  | b :: rest =>
    if b < 128 then some (b, rest)
    else
      match decodeVarint rest with
      | none => none
      | some (n, r) => some (n * 128 + (b - 128), r)

/-- Write one string field to the buffer, as prost does for a proto3 `string`
field: the default (empty) value is elided; otherwise key byte
(`tag <<< 3 ||| 2`, wire type length-delimited), length varint, raw bytes. -/
def encodeField (tag : Nat) (s : List Nat) : List Nat :=
  if s = [] then [] else encodeVarint (tag * 8 + 2) ++ encodeVarint s.length ++ s

/-- Encoding of a full `AnalysisInput`, fields in tag order, as prost's
derived `Message::encode` emits them. -/
def encode (v : AnalysisInput) : List Nat :=
  encodeField 1 v.content_hash ++ encodeField 2 v.content_text ++
    encodeField 3 v.source_id ++ encodeField 4 v.image_url

/-- Merge one decoded field value into the in-progress message (prost merge
semantics for `string`: the later occurrence overwrites). -/
def setField (acc : AnalysisInput) : Nat → List Nat → AnalysisInput
  | 1, s => { acc with content_hash := s }
  | 2, s => { acc with content_text := s }
  | 3, s => { acc with source_id := s }
  | 4, s => { acc with image_url := s }
  | _, _ => acc

/-- Decode a single field from the front of the buffer (prost's decode loop
body): read the key varint, split into tag and wire type; tag 0 is invalid;
tags 1–4 must carry wire type 2 and their payload is recorded via `setField`;
unknown tags are skipped according to their wire type (varint, 64-bit,
length-delimited, 32-bit; the deprecated group wire types are rejected).
Returns the remaining buffer and updated message, or `none` on a malformed
buffer. -/
def decodeStep (bs : List Nat) (acc : AnalysisInput) :
    Option (List Nat × AnalysisInput) :=
  match decodeVarint bs with
  | none => none
  | some (key, rest) =>
    let tag := key / 8
    let wire := key % 8
    if tag = 0 then none
    else if tag ≤ 4 then
      if wire = 2 then
        match decodeVarint rest with
        | none => none
        | some (len, rest2) =>
          if len ≤ rest2.length then
            some (rest2.drop len, setField acc tag (rest2.take len))
          else none
      else none
    else
      match wire with
      | 0 =>
        match decodeVarint rest with
        | none => none
        | some (_, r) => some (r, acc)
      | 1 => if 8 ≤ rest.length then some (rest.drop 8, acc) else none
      | 2 =>
        match decodeVarint rest with
        | none => none
        | some (len, r) =>
          if len ≤ r.length then some (r.drop len, acc) else none
      | 5 => if 4 ≤ rest.length then some (rest.drop 4, acc) else none
      | _ => none

/-- Fuel-indexed decode loop; `decode` supplies fuel equal to the buffer
length, which always suffices since each step consumes at least one byte. -/
def decodeLoop : Nat → List Nat → AnalysisInput → Option AnalysisInput
  | _, [], acc => some acc
  | 0, _ :: _, _ => none
  | fuel + 1, b :: bs, acc =>
    match decodeStep (b :: bs) acc with
    | none => none
    | some (rest, acc2) => decodeLoop fuel rest acc2

/-- Decoding of `AnalysisInput` over raw bytes (prost `Message::decode`):
parse fields starting from the prost default value; `none` models
`DecodeError`. -/
def decode (bs : List Nat) : Option AnalysisInput :=
  decodeLoop bs.length bs AnalysisInput.default

/-- The four (tag, payload) pairs of an `AnalysisInput`, in encode order. -/
def fieldList (v : AnalysisInput) : List (Nat × List Nat) :=
  [(1, v.content_hash), (2, v.content_text), (3, v.source_id),
   (4, v.image_url)]

/-- Concatenated encoding of a list of tagged fields. -/
def encodeFields : List (Nat × List Nat) → List Nat
  | [] => []
  | p :: ps => encodeField p.1 p.2 ++ encodeFields ps

/-- Effect of merging one encoded field on decode: an elided (empty) field
leaves the message unchanged. -/
def applyField (acc : AnalysisInput) (p : Nat × List Nat) : AnalysisInput :=
  if p.2 = [] then acc else setField acc p.1 p.2

/-- Association-list lookup with string keys, modelling
`HashMap::get`: the first binding for the key, if any. -/
def lookup {α : Type} : List (String × α) → String → Option α
  | [], _ => none
  | (k, v) :: rest, key => if k = key then some v else lookup rest key

/-- Type `NeuralFeatures` from `src/onnx_wrapper.rs`: a map from feature name
to score (`HashMap<String, f32>`), scores modelled as exact rationals. -/
def NeuralFeatures : Type := List (String × ℚ)

/-- Type `DgraphFacts` from `src/souffle_wrapper.rs`: a map from fact key to
fact value (`HashMap<String, String>`). -/
def DgraphFacts : Type := List (String × String)

/-- Function `run_inference` from `src/onnx_wrapper.rs`: the placeholder
ignores the content hash and returns the map with `fakeness_score` 0.5 and
`emotion_score` 0.3, always `Ok`. -/
def run_inference (content_hash : List Nat) :
    Except String NeuralFeatures :=
  let _ := content_hash
  Except.ok [("fakeness_score", (1 : ℚ)/2), ("emotion_score", (3 : ℚ)/10)]

/-- Function `fetch_dgraph_facts` from `src/main.rs`: the placeholder ignores
the source id and returns the single fact `source_trusted` set to the string
"true". -/
def fetch_dgraph_facts (source_id : List Nat) : DgraphFacts :=
  let _ := source_id
  [("source_trusted", "true")]

/-- Function `run_datalog` from `src/souffle_wrapper.rs`: reads
`fakeness_score` (default 0) and `source_trusted` (default untrusted), then
applies the rule chain: fakeness above 0.8 with an untrusted source gives
DISINFO, fakeness above 0.6 gives SUSPICIOUS, otherwise SAFE; always
returns `Ok`. -/
def run_datalog (neural_features : NeuralFeatures)
    (dgraph_facts : DgraphFacts) : Except String (String × String) :=
  let fakeness : ℚ := (lookup neural_features "fakeness_score").getD 0
  let source_trusted : Bool :=
    ((lookup dgraph_facts "source_trusted").map (fun v => v == "true")).getD
      false
  let p :=
    if (8 : ℚ)/10 < fakeness ∧ source_trusted = false then
      ("DISINFO", "High fakeness score from untrusted source")
    else if (6 : ℚ)/10 < fakeness then
      ("SUSPICIOUS", "Elevated fakeness score detected")
    else
      ("SAFE", "No rules fired (placeholder)")
  Except.ok p

/-- Observable side effects of the pipeline: the two Prometheus counters, the
number of latency observations recorded into the histogram, and the number of
`msg.ack()` calls issued for the message handle in flight. -/
structure Effects where
  processed : Nat
  errors : Nat
  latencyObs : Nat
  acks : Nat
deriving DecidableEq, Repr

/-- Function `process_message` from `src/main.rs`, parameterised by the three
stage collaborators so that the orchestrator's control flow can be examined
under arbitrary stage outcomes (the spec treats the stages as swappable
external collaborators).  Mirrors the source exactly: decode failure
increments the error counter, acks and returns; after a successful decode the
processed counter is incremented; an inference error increments the error
counter, acks and returns; a datalog error increments the error counter but
falls through; finally the latency histogram is observed and the message
acked. -/
def process_message_with
    (inference : List Nat → Except String NeuralFeatures)
    (facts : List Nat → DgraphFacts)
    (datalog : NeuralFeatures → DgraphFacts → Except String (String × String))
    (payload : List Nat) (m : Effects) : Effects :=
  match decode payload with
  | none => { m with errors := m.errors + 1, acks := m.acks + 1 }
  | some input =>
    let m1 := { m with processed := m.processed + 1 }
    match inference input.content_hash with
    | Except.error _ => { m1 with errors := m1.errors + 1, acks := m1.acks + 1 }
    | Except.ok neural_features =>
      let dgraph_facts := facts input.source_id
      let m2 :=
        match datalog neural_features dgraph_facts with
        | Except.ok _ => m1
        | Except.error _ => { m1 with errors := m1.errors + 1 }
      { m2 with latencyObs := m2.latencyObs + 1, acks := m2.acks + 1 }

/-- Function `process_message` as wired in `src/main.rs`: the orchestrator
composed with the concrete placeholder stages. -/
def process_message (payload : List Nat) (m : Effects) : Effects :=
  process_message_with run_inference fetch_dgraph_facts run_datalog payload m

instance {e a : Type} [DecidableEq e] [DecidableEq a] :
    DecidableEq (Except e a) := fun x y =>
  match x, y with
  | Except.error u, Except.error v => decidable_of_iff (u = v) (by simp)
  | Except.error _, Except.ok _ => isFalse (fun hc => Except.noConfusion hc)
  | Except.ok _, Except.error _ => isFalse (fun hc => Except.noConfusion hc)
  | Except.ok u, Except.ok v => decidable_of_iff (u = v) (by simp)

/-- One item delivered to the consumer loop's select: either the shutdown
signal wins the race, or the next call on the message sequence yields a
message with its payload (`Some(Ok _)`), a transport-level error
(`Some(Err _)`), or the end of the pull sequence (`None`). -/
inductive LoopEvent where
  | shutdown : LoopEvent
  | item : Option (Except String (List Nat)) → LoopEvent
deriving DecidableEq

/-- Why `run_consumer` stopped consuming: the shutdown signal, the end of the
pull sequence, or the end of the modelled event trace (the loop is still
running and waiting for more input). -/
inductive LoopExit where
  | shutdown : LoopExit
  | streamEnded : LoopExit
  | stillRunning : LoopExit
deriving DecidableEq

/-- Function `run_consumer` from `src/main.rs` over a finite trace of loop
events: `Ok` messages are dispatched to `process_message`, `Err` items
increment the error counter and the loop continues, the shutdown signal and
the end of the sequence break the loop. -/
def run_consumer : List LoopEvent → Effects → Effects × LoopExit
  | [], m => (m, LoopExit.stillRunning)
  | LoopEvent.shutdown :: _, m => (m, LoopExit.shutdown)
  | LoopEvent.item none :: _, m => (m, LoopExit.streamEnded)
  | LoopEvent.item (some (Except.error _)) :: rest, m =>
    run_consumer rest { m with errors := m.errors + 1 }
  | LoopEvent.item (some (Except.ok payload)) :: rest, m =>
    run_consumer rest (process_message payload m)

/-- Response model for the metrics server: status code, optional Content-Type
header, body. -/
structure HttpResponse where
  status : Nat
  contentType : Option String
  body : String
deriving DecidableEq, Repr

/-- Plain-text snapshot of the metrics registry.  The routing decision under
verification lives in `src/main.rs`; the body text itself is produced by the
prometheus crate's `TextEncoder` (library code, not part of this repository)
and is modelled here as a definite text rendering of the three registered
series. -/
def renderMetrics (m : Effects) : String :=
  "# TYPE nsai_errors_total counter\nnsai_errors_total " ++
    toString m.errors ++
    "\n# TYPE nsai_messages_processed_total counter\n" ++
    "nsai_messages_processed_total " ++ toString m.processed ++
    "\n# TYPE nsai_processing_latency_seconds histogram\n" ++
    "nsai_processing_latency_seconds_count " ++ toString m.latencyObs ++ "\n"

/-- Function `handle_metrics_request` from `src/main.rs`: the path
"/metrics" yields the plain-text snapshot (builder default status 200 with
the text-exposition content type); any other path yields status 404 with
body "Not Found". -/
def handle_metrics_request (path : String) (m : Effects) : HttpResponse :=
  if path = "/metrics" then
    { status := 200
      contentType := some "text/plain; version=0.0.4"
      body := renderMetrics m }
  else
    { status := 404, contentType := none, body := "Not Found" }

/-- UTF-8 bytes of a string, as `List Nat`. -/
def strBytes (s : String) : List Nat :=
  s.toUTF8.toList.map (fun b => b.toNat)

/-- Scenario A's concrete `AnalysisInput` value from the spec and from
`test_analysis_input_roundtrip` in `src/model_pb.rs`. -/
def scenarioA : AnalysisInput :=
  ⟨strBytes "abc123", strBytes "Test content", strBytes "source-1",
   strBytes "https://example.com/img.png"⟩

/-- A failing FeatureExtractor stage, used to exercise the orchestrator's
inference-error branch. -/
def failingInference : List Nat → Except String NeuralFeatures :=
  fun _ => Except.error "inference error"

/-- A three-byte payload that decodes successfully: field tag 1 (wire type
2), length 1, byte 97, i.e. `content_hash = "a"` and the other fields
empty. -/
def smallPayload : List Nat := [10, 1, 97]

theorem encodeVarint_ne_nil (n : Nat) : encodeVarint n ≠ [] := by
  rw [encodeVarint]
  split <;> simp

theorem decodeVarint_length {bs : List Nat} {n : Nat} {r : List Nat}
    (h : decodeVarint bs = some (n, r)) : r.length < bs.length := by
  induction bs generalizing n r with
  | nil => simp [decodeVarint] at h
  | cons b rest ih =>
    simp only [decodeVarint] at h
    by_cases hb : b < 128
    · rw [if_pos hb] at h
      have hr : r = rest := by
        have := (Option.some.injEq _ _).mp h
        exact ((Prod.mk.injEq _ _ _ _).mp this |>.2).symm
      rw [hr, List.length_cons]
      omega
    · rw [if_neg hb] at h
      cases hv : decodeVarint rest with
      | none => rw [hv] at h; exact absurd h (by simp)
      | some p =>
        obtain ⟨m, r2⟩ := p
        rw [hv] at h
        have hr : r = r2 := by
          have := (Option.some.injEq _ _).mp h
          exact ((Prod.mk.injEq _ _ _ _).mp this |>.2).symm
        have := ih hv
        rw [hr, List.length_cons]
        omega

theorem decodeVarint_encodeVarint (n : Nat) (rest : List Nat) :
    decodeVarint (encodeVarint n ++ rest) = some (n, rest) := by
  induction n using Nat.strong_induction_on with
  | _ n ih =>
    rw [encodeVarint]
    by_cases h : n < 128
    · rw [dif_pos h]
      simp [decodeVarint, h]
    · have hlt : n / 128 < n := Nat.div_lt_self (by omega) (by omega)
      have h2 : ¬ (n % 128 + 128 < 128) := by omega
      rw [dif_neg h, List.cons_append]
      simp only [decodeVarint, if_neg h2, ih (n / 128) hlt]
      have hn : n / 128 * 128 + (n % 128 + 128 - 128) = n := by omega
      rw [hn]

theorem decodeStep_length {bs : List Nat} {acc : AnalysisInput}
    {rest : List Nat} {acc2 : AnalysisInput}
    (h : decodeStep bs acc = some (rest, acc2)) : rest.length < bs.length := by
  unfold decodeStep at h
  split at h
  · exact absurd h (by simp)
  rename_i key r1 hk
  have hr1 : r1.length < bs.length := decodeVarint_length hk
  simp only [] at h
  split at h
  · exact absurd h (by simp)
  split at h
  · split at h
    · split at h
      · exact absurd h (by simp)
      rename_i len r2 hl
      have hr2 : r2.length < r1.length := decodeVarint_length hl
      split at h
      · have hrest : r2.drop len = rest :=
          (Prod.ext_iff.mp (Option.some.inj h)).1
        rw [← hrest, List.length_drop]
        omega
      · exact absurd h (by simp)
    · exact absurd h (by simp)
  · split at h
    · split at h
      · exact absurd h (by simp)
      rename_i m r2 hl
      have hr2 : r2.length < r1.length := decodeVarint_length hl
      have hrest : r2 = rest := (Prod.ext_iff.mp (Option.some.inj h)).1
      rw [← hrest]
      omega
    · split at h
      · have hrest : r1.drop 8 = rest :=
          (Prod.ext_iff.mp (Option.some.inj h)).1
        rw [← hrest, List.length_drop]
        omega
      · exact absurd h (by simp)
    · split at h
      · exact absurd h (by simp)
      rename_i len r2 hl
      have hr2 : r2.length < r1.length := decodeVarint_length hl
      split at h
      · have hrest : r2.drop len = rest :=
          (Prod.ext_iff.mp (Option.some.inj h)).1
        rw [← hrest, List.length_drop]
        omega
      · exact absurd h (by simp)
    · split at h
      · have hrest : r1.drop 4 = rest :=
          (Prod.ext_iff.mp (Option.some.inj h)).1
        rw [← hrest, List.length_drop]
        omega
      · exact absurd h (by simp)
    · exact absurd h (by simp)

theorem decodeLoop_nil (fuel : Nat) (acc : AnalysisInput) :
    decodeLoop fuel [] acc = some acc := by
  cases fuel <;> rfl

theorem decodeLoop_fuel_irrel (f1 : Nat) :
    ∀ (f2 : Nat) (bs : List Nat) (acc : AnalysisInput),
    bs.length ≤ f1 → bs.length ≤ f2 →
    decodeLoop f1 bs acc = decodeLoop f2 bs acc := by
  induction f1 with
  | zero =>
    intro f2 bs acc h1 h2
    have : bs = [] := List.length_eq_zero.mp (Nat.le_zero.mp h1)
    rw [this, decodeLoop_nil, decodeLoop_nil]
  | succ f ih =>
    intro f2 bs acc h1 h2
    cases bs with
    | nil => rw [decodeLoop_nil, decodeLoop_nil]
    | cons b bs2 =>
      cases f2 with
      | zero => simp at h2
      | succ f2p =>
        simp only [decodeLoop]
        cases hs : decodeStep (b :: bs2) acc with
        | none => rfl
        | some p =>
          obtain ⟨rest, acc2⟩ := p
          have hlen := decodeStep_length hs
          simp only [List.length_cons] at h1 h2 hlen
          exact ih f2p rest acc2 (by omega) (by omega)

theorem decodeStep_encodeField (tag : Nat) (s rest : List Nat)
    (acc : AnalysisInput) (h1 : 1 ≤ tag) (h2 : tag ≤ 4) (h3 : s ≠ []) :
    decodeStep (encodeField tag s ++ rest) acc =
      some (rest, setField acc tag s) := by
  have hkey : (tag * 8 + 2) / 8 = tag := by omega
  have hwire : (tag * 8 + 2) % 8 = 2 := by omega
  have htag0 : ¬ tag = 0 := by omega
  rw [encodeField, if_neg h3]
  unfold decodeStep
  rw [List.append_assoc, List.append_assoc]
  simp only [decodeVarint_encodeVarint, hkey, hwire, if_neg htag0, if_pos h2,
    if_pos rfl, if_true, ite_true]
  have hle : s.length ≤ (s ++ rest).length := by
    simp [List.length_append]
  rw [if_pos hle, List.drop_left, List.take_left]

theorem encode_eq_encodeFields (v : AnalysisInput) :
    encode v = encodeFields (fieldList v) := by
  simp [encode, fieldList, encodeFields]

theorem decodeLoop_encodeFields :
    ∀ (l : List (Nat × List Nat)) (acc : AnalysisInput) (fuel : Nat),
    (∀ p ∈ l, 1 ≤ p.1 ∧ p.1 ≤ 4) → (encodeFields l).length ≤ fuel →
    decodeLoop fuel (encodeFields l) acc = some (l.foldl applyField acc) := by
  intro l
  induction l with
  | nil =>
    intro acc fuel htags hfuel
    simp [encodeFields, decodeLoop_nil, List.foldl]
  | cons p ps ih =>
    intro acc fuel htags hfuel
    obtain ⟨t, s⟩ := p
    have htag := htags (t, s) (by simp)
    by_cases hs : s = []
    · have hnil : encodeField t s = [] := by simp [encodeField, hs]
      simp only [encodeFields, hnil, List.nil_append, List.foldl,
        applyField, hs, if_pos]
      exact ih acc fuel (fun q hq => htags q (by simp [hq])) (by
        simpa [encodeFields, hnil] using hfuel)
    · have hne : encodeField t s ++ encodeFields ps ≠ [] := by
        simp [encodeField, hs]
      have hlen : 1 ≤ (encodeField t s).length := by
        rcases hf : encodeField t s with _ | ⟨c, cs⟩
        · exact absurd hf (by simp [encodeField, hs])
        · simp
      cases hfl : encodeFields ((t, s) :: ps) with
      | nil => exact absurd (by simpa [encodeFields] using hfl) hne
      | cons b bs2 =>
        have hflen : (b :: bs2).length ≤ fuel := by
          rw [← hfl]; exact hfuel
        cases fuel with
        | zero => simp at hflen
        | succ f =>
          rw [← hfl]
          have hstep := decodeStep_encodeField t s (encodeFields ps) acc
            htag.1 htag.2 hs
          have hunfold :
              decodeLoop (f + 1) (encodeFields ((t, s) :: ps)) acc =
              decodeLoop f (encodeFields ps) (setField acc t s) := by
            rw [hfl]
            simp only [decodeLoop]
            rw [← hfl]
            show (match decodeStep (encodeFields ((t, s) :: ps)) acc with
              | none => none
              | some (rest, acc2) => decodeLoop f rest acc2) = _
            rw [show encodeFields ((t, s) :: ps) =
                encodeField t s ++ encodeFields ps from rfl, hstep]
          rw [hunfold]
          have hlen2 : (encodeFields ps).length ≤ f := by
            have : (encodeField t s ++ encodeFields ps).length ≤ f + 1 := by
              rw [← show encodeFields ((t, s) :: ps) =
                encodeField t s ++ encodeFields ps from rfl]
              exact hfuel
            simp [List.length_append] at this
            omega
          rw [ih (setField acc t s) f
            (fun q hq => htags q (by simp [hq])) hlen2]
          simp [List.foldl, applyField, hs]

theorem decode_encode (v : AnalysisInput) : decode (encode v) = some v := by
  rw [decode, encode_eq_encodeFields]
  rw [decodeLoop_encodeFields (fieldList v) AnalysisInput.default
    (encodeFields (fieldList v)).length (by simp [fieldList]) le_rfl]
  obtain ⟨ch, ct, si, iu⟩ := v
  simp only [fieldList, List.foldl, applyField, setField, AnalysisInput.default]
  by_cases h1 : ch = [] <;> by_cases h2 : ct = [] <;>
    by_cases h3 : si = [] <;> by_cases h4 : iu = [] <;>
    simp [h1, h2, h3, h4, setField]

theorem process_message_with_decode_err
    (inference : List Nat → Except String NeuralFeatures)
    (facts : List Nat → DgraphFacts)
    (datalog : NeuralFeatures → DgraphFacts → Except String (String × String))
    (payload : List Nat) (m : Effects) (h : decode payload = none) :
    process_message_with inference facts datalog payload m =
      { m with errors := m.errors + 1, acks := m.acks + 1 } := by
  simp only [process_message_with, h]

theorem process_message_with_inference_err
    (inference : List Nat → Except String NeuralFeatures)
    (facts : List Nat → DgraphFacts)
    (datalog : NeuralFeatures → DgraphFacts → Except String (String × String))
    (payload : List Nat) (m : Effects) (input : AnalysisInput) (e : String)
    (hdec : decode payload = some input)
    (hinf : inference input.content_hash = Except.error e) :
    process_message_with inference facts datalog payload m =
      { m with processed := m.processed + 1, errors := m.errors + 1,
               acks := m.acks + 1 } := by
  simp only [process_message_with, hdec, hinf]

theorem process_message_with_datalog_err
    (inference : List Nat → Except String NeuralFeatures)
    (facts : List Nat → DgraphFacts)
    (datalog : NeuralFeatures → DgraphFacts → Except String (String × String))
    (payload : List Nat) (m : Effects) (input : AnalysisInput)
    (nf : NeuralFeatures) (e : String)
    (hdec : decode payload = some input)
    (hinf : inference input.content_hash = Except.ok nf)
    (hdl : datalog nf (facts input.source_id) = Except.error e) :
    process_message_with inference facts datalog payload m =
      { m with processed := m.processed + 1, errors := m.errors + 1,
               latencyObs := m.latencyObs + 1, acks := m.acks + 1 } := by
  simp only [process_message_with, hdec, hinf, hdl]

theorem process_message_with_ok
    (inference : List Nat → Except String NeuralFeatures)
    (facts : List Nat → DgraphFacts)
    (datalog : NeuralFeatures → DgraphFacts → Except String (String × String))
    (payload : List Nat) (m : Effects) (input : AnalysisInput)
    (nf : NeuralFeatures) (r : String × String)
    (hdec : decode payload = some input)
    (hinf : inference input.content_hash = Except.ok nf)
    (hdl : datalog nf (facts input.source_id) = Except.ok r) :
    process_message_with inference facts datalog payload m =
      { m with processed := m.processed + 1, latencyObs := m.latencyObs + 1,
               acks := m.acks + 1 } := by
  simp only [process_message_with, hdec, hinf, hdl]

theorem process_message_with_acks
    (inference : List Nat → Except String NeuralFeatures)
    (facts : List Nat → DgraphFacts)
    (datalog : NeuralFeatures → DgraphFacts → Except String (String × String))
    (payload : List Nat) (m : Effects) :
    (process_message_with inference facts datalog payload m).acks =
      m.acks + 1 := by
  unfold process_message_with
  cases hdec : decode payload with
  | none => rfl
  | some input =>
    simp only []
    cases hinf : inference input.content_hash with
    | error e => rfl
    | ok nf =>
      simp only []
      split <;> rfl

theorem run_inference_ok (h : List Nat) :
    run_inference h =
      Except.ok [("fakeness_score", (1 : ℚ)/2),
                 ("emotion_score", (3 : ℚ)/10)] := rfl

theorem run_datalog_always_ok (nf : NeuralFeatures) (df : DgraphFacts) :
    ∃ r, run_datalog nf df = Except.ok r := ⟨_, rfl⟩

theorem run_datalog_default :
    run_datalog [("fakeness_score", (1 : ℚ)/2), ("emotion_score", (3 : ℚ)/10)]
      [("source_trusted", "true")] =
      Except.ok ("SAFE", "No rules fired (placeholder)") := by
  simp only [run_datalog, lookup]
  norm_num

theorem run_consumer_shutdown_mem :
    ∀ (evs : List LoopEvent) (m : Effects),
    (run_consumer evs m).2 = LoopExit.shutdown →
    LoopEvent.shutdown ∈ evs := by
  intro evs
  induction evs with
  | nil => intro m h; simp [run_consumer] at h
  | cons e rest ih =>
    intro m h
    cases e with
    | shutdown => exact List.mem_cons_self _ _
    | item o =>
      cases o with
      | none => simp [run_consumer] at h
      | some r =>
        cases r with
        | error s =>
          simp only [run_consumer] at h
          exact List.mem_cons_of_mem _ (ih _ h)
        | ok payload =>
          simp only [run_consumer] at h
          exact List.mem_cons_of_mem _ (ih _ h)

theorem run_consumer_streamEnded_mem :
    ∀ (evs : List LoopEvent) (m : Effects),
    (run_consumer evs m).2 = LoopExit.streamEnded →
    LoopEvent.item none ∈ evs := by
  intro evs
  induction evs with
  | nil => intro m h; simp [run_consumer] at h
  | cons e rest ih =>
    intro m h
    cases e with
    | shutdown => simp [run_consumer] at h
    | item o =>
      cases o with
      | none => exact List.mem_cons_self _ _
      | some r =>
        cases r with
        | error s =>
          simp only [run_consumer] at h
          exact List.mem_cons_of_mem _ (ih _ h)
        | ok payload =>
          simp only [run_consumer] at h
          exact List.mem_cons_of_mem _ (ih _ h)

/-- Claim C1, counterexample: at the three-byte payload `[10, 1, 97]` (which
decodes successfully) with a failing FeatureExtractor stage, the orchestrator
does NOT leave the processed counter unchanged — `process_message` increments
it immediately after the successful decode, before any stage runs. -/
theorem claim_C1_counterexample :
    decode smallPayload = some ⟨[97], [], [], []⟩ ∧
    failingInference [97] = Except.error "inference error" ∧
    (process_message_with failingInference fetch_dgraph_facts run_datalog
        smallPayload ⟨0, 0, 0, 0⟩).processed ≠ 0 :=
  ⟨by decide, rfl, by decide⟩

/-- Claim C1 (amended): for every message whose payload decodes successfully
but where an analysis stage (FeatureExtractor, or VerdictEngine) returns an
error, `process_message` issues exactly one ack, increments the error counter
by exactly one, and ALSO increments the processed counter by exactly one (the
processed counter is incremented right after the successful decode, before
the stages run). -/
theorem claim_C1
    (inference : List Nat → Except String NeuralFeatures)
    (facts : List Nat → DgraphFacts)
    (datalog : NeuralFeatures → DgraphFacts → Except String (String × String))
    (payload : List Nat) (m : Effects) (input : AnalysisInput)
    (hdec : decode payload = some input)
    (hfail : (∃ e, inference input.content_hash = Except.error e) ∨
      (∃ nf e, inference input.content_hash = Except.ok nf ∧
        datalog nf (facts input.source_id) = Except.error e)) :
    (process_message_with inference facts datalog payload m).acks =
        m.acks + 1 ∧
    (process_message_with inference facts datalog payload m).errors =
        m.errors + 1 ∧
    (process_message_with inference facts datalog payload m).processed =
        m.processed + 1 := by
  rcases hfail with ⟨e, he⟩ | ⟨nf, e, hok, he⟩
  · rw [process_message_with_inference_err inference facts datalog payload m
      input e hdec he]
    exact ⟨rfl, rfl, rfl⟩
  · rw [process_message_with_datalog_err inference facts datalog payload m
      input nf e hdec hok he]
    exact ⟨rfl, rfl, rfl⟩

theorem claim_C1_witness :
    (process_message_with failingInference fetch_dgraph_facts run_datalog
        smallPayload ⟨0, 0, 0, 0⟩).acks = 0 + 1 ∧
    (process_message_with failingInference fetch_dgraph_facts run_datalog
        smallPayload ⟨0, 0, 0, 0⟩).errors = 0 + 1 ∧
    (process_message_with failingInference fetch_dgraph_facts run_datalog
        smallPayload ⟨0, 0, 0, 0⟩).processed = 0 + 1 :=
  claim_C1 failingInference fetch_dgraph_facts run_datalog smallPayload
    ⟨0, 0, 0, 0⟩ ⟨[97], [], [], []⟩ (by decide)
    (Or.inl ⟨"inference error", rfl⟩)

/-- Claim C2: for every message handle passed to `process_message`, the
orchestrator calls ack exactly once before returning, regardless of outcome —
under arbitrary stage collaborators (covering decode failure, stage failure
and success alike), and in particular for the concrete pipeline as wired. -/
theorem claim_C2 :
    (∀ (inference : List Nat → Except String NeuralFeatures)
      (facts : List Nat → DgraphFacts)
      (datalog : NeuralFeatures → DgraphFacts →
        Except String (String × String))
      (payload : List Nat) (m : Effects),
      (process_message_with inference facts datalog payload m).acks =
        m.acks + 1) ∧
    (∀ (payload : List Nat) (m : Effects),
      (process_message payload m).acks = m.acks + 1) :=
  ⟨process_message_with_acks,
   fun payload m =>
    process_message_with_acks run_inference fetch_dgraph_facts run_datalog
      payload m⟩

/-- Claim C3: decoding the bytes produced by encoding any `AnalysisInput`
value yields the same value field for field; in particular the Scenario A
value round-trips unchanged. -/
theorem claim_C3 :
    (∀ v : AnalysisInput, decode (encode v) = some v) ∧
    decode (encode scenarioA) = some scenarioA :=
  ⟨decode_encode, decode_encode scenarioA⟩

/-- Claim C4: for every byte sequence that is not a well-formed
`AnalysisInput` envelope (`decode` returns `none`, never an unrecoverable
fault), `process_message` takes the decode-error branch: exactly one ack, the
error counter incremented by exactly one, the processed counter (and the
latency histogram) untouched. -/
theorem claim_C4 (payload : List Nat) (m : Effects)
    (h : decode payload = none) :
    process_message payload m =
      { m with errors := m.errors + 1, acks := m.acks + 1 } :=
  process_message_with_decode_err run_inference fetch_dgraph_facts
    run_datalog payload m h

theorem claim_C4_witness :
    process_message [8] ⟨0, 0, 0, 0⟩ =
      { (⟨0, 0, 0, 0⟩ : Effects) with errors := 0 + 1, acks := 0 + 1 } :=
  claim_C4 [8] ⟨0, 0, 0, 0⟩ (by decide)

/-- Claim C5: `run_datalog` maps features containing `fakeness_score` 0.9
with facts containing `source_trusted` "false" to DISINFO; features
containing `fakeness_score` 0.7 to SUSPICIOUS for every facts map; and
features containing `fakeness_score` 0.3 with facts containing
`source_trusted` "true" to SAFE. -/
theorem claim_C5 :
    (∀ (features : NeuralFeatures) (facts : DgraphFacts),
      lookup features "fakeness_score" = some ((9 : ℚ)/10) →
      lookup facts "source_trusted" = some "false" →
      run_datalog features facts =
        Except.ok ("DISINFO", "High fakeness score from untrusted source")) ∧
    (∀ (features : NeuralFeatures) (facts : DgraphFacts),
      lookup features "fakeness_score" = some ((7 : ℚ)/10) →
      run_datalog features facts =
        Except.ok ("SUSPICIOUS", "Elevated fakeness score detected")) ∧
    (∀ (features : NeuralFeatures) (facts : DgraphFacts),
      lookup features "fakeness_score" = some ((3 : ℚ)/10) →
      lookup facts "source_trusted" = some "true" →
      run_datalog features facts =
        Except.ok ("SAFE", "No rules fired (placeholder)")) := by
  refine ⟨?_, ?_, ?_⟩
  · intro features facts h1 h2
    norm_num [run_datalog, h1, h2]
    exact fun hc => absurd hc (by decide)
  · intro features facts h1
    norm_num [run_datalog, h1]
  · intro features facts h1 h2
    norm_num [run_datalog, h1, h2]

theorem claim_C5_witness :
    run_datalog [("fakeness_score", (9 : ℚ)/10)]
      [("source_trusted", "false")] =
      Except.ok ("DISINFO", "High fakeness score from untrusted source") ∧
    run_datalog [("fakeness_score", (7 : ℚ)/10)] [] =
      Except.ok ("SUSPICIOUS", "Elevated fakeness score detected") ∧
    run_datalog [("fakeness_score", (3 : ℚ)/10)]
      [("source_trusted", "true")] =
      Except.ok ("SAFE", "No rules fired (placeholder)") :=
  ⟨claim_C5.1 _ _ (by simp [lookup]) (by simp [lookup]),
   claim_C5.2.1 _ _ (by simp [lookup]),
   claim_C5.2.2 _ _ (by simp [lookup]) (by simp [lookup])⟩

/-- Claim C6: for every message that decodes successfully and for which both
the FeatureExtractor and the VerdictEngine stages return `Ok`,
`process_message` issues exactly one ack, increments the processed counter by
exactly one, and leaves the error counter unchanged. -/
theorem claim_C6
    (inference : List Nat → Except String NeuralFeatures)
    (facts : List Nat → DgraphFacts)
    (datalog : NeuralFeatures → DgraphFacts → Except String (String × String))
    (payload : List Nat) (m : Effects) (input : AnalysisInput)
    (nf : NeuralFeatures) (r : String × String)
    (hdec : decode payload = some input)
    (hinf : inference input.content_hash = Except.ok nf)
    (hdl : datalog nf (facts input.source_id) = Except.ok r) :
    (process_message_with inference facts datalog payload m).acks =
        m.acks + 1 ∧
    (process_message_with inference facts datalog payload m).processed =
        m.processed + 1 ∧
    (process_message_with inference facts datalog payload m).errors =
        m.errors := by
  rw [process_message_with_ok inference facts datalog payload m input nf r
    hdec hinf hdl]
  exact ⟨rfl, rfl, rfl⟩

theorem claim_C6_witness :
    (process_message smallPayload ⟨0, 0, 0, 0⟩).acks = 0 + 1 ∧
    (process_message smallPayload ⟨0, 0, 0, 0⟩).processed = 0 + 1 ∧
    (process_message smallPayload ⟨0, 0, 0, 0⟩).errors = 0 :=
  claim_C6 run_inference fetch_dgraph_facts run_datalog smallPayload
    ⟨0, 0, 0, 0⟩ ⟨[97], [], [], []⟩
    [("fakeness_score", (1 : ℚ)/2), ("emotion_score", (3 : ℚ)/10)]
    ("SAFE", "No rules fired (placeholder)")
    (by decide) rfl run_datalog_default

/-- Claim C7: a transport-level `Err` item makes the consumer loop increment
the error counter and continue pulling, and the loop terminates only on the
shutdown signal or when the pull sequence ends (`None`). -/
theorem claim_C7 :
    (∀ (e : String) (rest : List LoopEvent) (m : Effects),
      run_consumer (LoopEvent.item (some (Except.error e)) :: rest) m =
        run_consumer rest { m with errors := m.errors + 1 }) ∧
    (∀ (evs : List LoopEvent) (m : Effects),
      (run_consumer evs m).2 = LoopExit.shutdown →
      LoopEvent.shutdown ∈ evs) ∧
    (∀ (evs : List LoopEvent) (m : Effects),
      (run_consumer evs m).2 = LoopExit.streamEnded →
      LoopEvent.item none ∈ evs) :=
  ⟨fun _ _ _ => rfl, run_consumer_shutdown_mem, run_consumer_streamEnded_mem⟩

theorem claim_C7_witness :
    run_consumer [LoopEvent.item (some (Except.error "boom"))] ⟨0, 0, 0, 0⟩ =
      run_consumer [] (⟨0, 1, 0, 0⟩ : Effects) ∧
    LoopEvent.shutdown ∈ [LoopEvent.shutdown] ∧
    LoopEvent.item none ∈ [LoopEvent.item none] :=
  ⟨claim_C7.1 "boom" [] ⟨0, 0, 0, 0⟩,
   claim_C7.2.1 [LoopEvent.shutdown] ⟨0, 0, 0, 0⟩ (by decide),
   claim_C7.2.2 [LoopEvent.item none] ⟨0, 0, 0, 0⟩ (by decide)⟩

/-- Claim C8: `handle_metrics_request` returns the plain-text metrics
snapshot (status 200) exactly when the request path is "/metrics", and a
status-404 response for every other path. -/
theorem claim_C8 (path : String) (m : Effects) :
    (path = "/metrics" → handle_metrics_request path m =
      ⟨200, some "text/plain; version=0.0.4", renderMetrics m⟩) ∧
    (path ≠ "/metrics" → handle_metrics_request path m =
      ⟨404, none, "Not Found"⟩) := by
  constructor
  · intro h
    simp [handle_metrics_request, h]
  · intro h
    simp [handle_metrics_request, h]

theorem claim_C8_witness :
    handle_metrics_request "/metrics" ⟨0, 0, 0, 0⟩ =
      ⟨200, some "text/plain; version=0.0.4", renderMetrics ⟨0, 0, 0, 0⟩⟩ ∧
    handle_metrics_request "/other" ⟨0, 0, 0, 0⟩ =
      ⟨404, none, "Not Found"⟩ :=
  ⟨(claim_C8 "/metrics" ⟨0, 0, 0, 0⟩).1 rfl,
   (claim_C8 "/other" ⟨0, 0, 0, 0⟩).2 (by decide)⟩

/-- Claim C9: the pipeline as wired always computes SAFE: `run_inference`
returns the constant feature map with `fakeness_score` 0.5 for every content
hash, `fetch_dgraph_facts` returns the constant trusted-source fact map for
every source id, and `run_datalog` on those values takes the SAFE branch, so
the DISINFO and SUSPICIOUS outcomes are unreachable end to end. -/
theorem claim_C9 (hash sid : List Nat) :
    run_inference hash = Except.ok
      [("fakeness_score", (1 : ℚ)/2), ("emotion_score", (3 : ℚ)/10)] ∧
    fetch_dgraph_facts sid = [("source_trusted", "true")] ∧
    run_datalog [("fakeness_score", (1 : ℚ)/2), ("emotion_score", (3 : ℚ)/10)]
      [("source_trusted", "true")] =
      Except.ok ("SAFE", "No rules fired (placeholder)") :=
  ⟨rfl, rfl, run_datalog_default⟩

/-- Claim C10: the placeholder stages never fail — `run_inference` returns
`Ok` for every input and `run_datalog` returns `Ok` for all inputs — so in
the concrete pipeline only a decode failure can increment the error counter
inside `process_message`. -/
theorem claim_C10 :
    (∀ h : List Nat, run_inference h = Except.ok
      [("fakeness_score", (1 : ℚ)/2), ("emotion_score", (3 : ℚ)/10)]) ∧
    (∀ (nf : NeuralFeatures) (df : DgraphFacts), ∃ r,
      run_datalog nf df = Except.ok r) ∧
    (∀ (payload : List Nat) (m : Effects),
      (process_message payload m).errors =
        if decode payload = none then m.errors + 1 else m.errors) := by
  refine ⟨run_inference_ok, run_datalog_always_ok, ?_⟩
  intro payload m
  cases hdec : decode payload with
  | none =>
    rw [if_pos rfl,
      show process_message payload m = _ from
        process_message_with_decode_err run_inference fetch_dgraph_facts
          run_datalog payload m hdec]
  | some input =>
    obtain ⟨r, hr⟩ := run_datalog_always_ok
      [("fakeness_score", (1 : ℚ)/2), ("emotion_score", (3 : ℚ)/10)]
      (fetch_dgraph_facts input.source_id)
    rw [if_neg (by simp),
      show process_message payload m = _ from
        process_message_with_ok run_inference fetch_dgraph_facts run_datalog
          payload m input _ r hdec (run_inference_ok input.content_hash) hr]

end NSAI
